import Mathlib

/-!
Shallow embedding of the remote-to-local synchronization engine of
`Scripts/BackupOneDrive.py`, the standalone deduplicator
`Scripts/DeduplicateFiles.py`, and the OAuth callback listener
`Scripts/Impl/CallbackServer.py`.

Filesystems are modelled as association lists from path to whole-file
content; machine integers are `Nat`; Python dicts (which preserve
insertion order) are modelled as insertion-ordered association lists.
-/

/-- Filesystem model: an association list from file path to file content
(a list of bytes).  Only whole files are ever stored, which is what the
two-hop rename of `_ProcessFiles.Transform` is meant to guarantee. -/
abbrev FS : Type := List (String × List Nat)

/-- Association-list lookup (first match wins). -/
def assocLookup {β : Type} : List (String × β) → String → Option β
  | [], _ => none
  | (k, v) :: rest, key => if k = key then some v else assocLookup rest key

/-- Lookup of a path in the filesystem model. -/
def fsLookup (fs : FS) (p : String) : Option (List Nat) :=
  assocLookup fs p

/-- Model of `Path.unlink(missing_ok=True)`: drop every entry at the path. -/
def fsRemove : FS → String → FS
  | [], _ => []
  | (q, c) :: rest, p => if q = p then fsRemove rest p else (q, c) :: fsRemove rest p

/-- Model of opening a file with mode `"wb"` and writing content `c`:
any previous file at the path is replaced by the new whole content. -/
def fsWrite (fs : FS) (p : String) (c : List Nat) : FS :=
  fsRemove fs p ++ [(p, c)]

/-- Model of `shutil.move(src, dst)`: when `src` exists, its content is
re-registered under `dst` (overwriting `dst`) and removed from `src`. -/
def fsMove (fs : FS) (src dst : String) : FS :=
  match fsLookup fs src with
  | none => fs
  | some c => fsWrite (fsRemove fs src) dst c

/-- The `.tmp` sibling of the destination, `dest.parent / f"{dest.name}.tmp"`
in `_ProcessFiles.Transform`. -/
def destTmpName (dest : String) : String := dest ++ ".tmp"

/-- Commit step 1 of `Transform`: `dest_temp.unlink(missing_ok=True)`. -/
def commitStep1 (fs : FS) (dest : String) : FS :=
  fsRemove fs (destTmpName dest)

/-- Commit step 2 of `Transform`: `shutil.move(temp_filename, dest_temp)`. -/
def commitStep2 (fs : FS) (temp dest : String) : FS :=
  fsMove (commitStep1 fs dest) temp (destTmpName dest)

/-- Commit step 3 of `Transform`: `dest.unlink(missing_ok=True)`. -/
def commitStep3 (fs : FS) (temp dest : String) : FS :=
  fsRemove (commitStep2 fs temp dest) dest

/-- Commit step 4 of `Transform`: `shutil.move(dest_temp, dest)`.  The
four steps are performed in exactly this order. -/
def commit (fs : FS) (temp dest : String) : FS :=
  fsMove (commitStep3 fs temp dest) (destTmpName dest) dest

/-- Content obtained by concatenating all chunks of
`response.iter_content(chunk_size=8192)`. -/
def downloadedContent (chunks : List (List Nat)) : List Nat :=
  chunks.flatten

/-- Model of `_ProcessFiles.Transform`: stream the chunks into a
uniquely-named temporary file, then run the four-step commit. -/
def transform (fs : FS) (chunks : List (List Nat)) (temp dest : String) : FS :=
  commit (fsWrite fs temp (downloadedContent chunks)) temp dest

/-- Credential state of `_Token`: the persisted refresh token, the
in-memory access token and its expiry instant (`None` before the first
acquisition).  Instants are seconds as `Nat`. -/
structure TokenState where
  refreshToken : String
  accessToken : Option String
  accessExpires : Option Nat
deriving DecidableEq

/-- Fields of a token-endpoint refresh response that `GetAccessToken`
reads: `access_token`, `expires_in`, and an optional `refresh_token`. -/
structure RefreshResponse where
  accessToken : String
  expiresIn : Nat
  refreshToken : Option String
deriving DecidableEq

/-- Condition of the refresh branch in `_Token.GetAccessToken`:
`self._access_expires is None or datetime.now(UTC) >= self._access_expires`. -/
def tokenNeedsRefresh (st : TokenState) (now : Nat) : Bool :=
  match st.accessExpires with
  | none => true
  | some e => decide (e ≤ now)

/-- Expiry stored by `_Token.GetAccessToken`:
`now + max(5, int(float(expires_in) * 0.90))` seconds.  The float
multiplication is modelled exactly: for declared lifetimes in the
integer range the Python code uses, `int(float(E) * 0.90)` equals the
rational floor `9 * E / 10`. -/
def refreshDeadline (now expiresIn : Nat) : Nat :=
  now + max 5 (9 * expiresIn / 10)

/-- Model of `_Token.GetAccessToken`.  `now` is the current instant and
`resp` the response the token endpoint would return if a refresh were
performed.  Returns the access token, the updated state, and whether a
refresh was performed. -/
def GetAccessToken (st : TokenState) (now : Nat) (resp : RefreshResponse) :
    (String × TokenState) × Bool :=
  if tokenNeedsRefresh st now then
    ((resp.accessToken,
      { refreshToken := resp.refreshToken.getD st.refreshToken,
        accessToken := some resp.accessToken,
        accessExpires := some (refreshDeadline now resp.expiresIn) }), true)
  else
    ((st.accessToken.getD "", st), false)

/-- Model of `urllib.parse.parse_qs(query)[key]`: the list of values of
the query parameters named `key`, in order. -/
def parseQsGet (query : List (String × String)) (key : String) : List String :=
  (query.filter (fun p => decide (p.1 = key))).map (fun p => p.2)

/-- Model of the `GetHeaders` closure in `Backup`: the standard OAuth
bearer header carrying the current access token. -/
def getHeaders (accessToken : String) : List (String × String) :=
  [("Authorization", "Bearer " ++ accessToken)]

/-- Header selection of `_ProcessFiles.Prepare`: when the download URL's
query string carries `tempauth`, use it as the sole bearer credential;
otherwise use the standard OAuth headers. -/
def prepareDownloadHeaders (query : List (String × String)) (accessToken : String) :
    List (String × String) :=
  match parseQsGet query "tempauth" with
  | [] => getHeaders accessToken
  | v :: _ => [("Bearer", v)]

/-- Rule payload of `_GetFilesToProcess.FileProcessorInfo`: the matching
extension set and the destination directory template. -/
structure FileProcessorInfo where
  fileTypes : List String
  outputDirTemplate : List String
deriving DecidableEq

/-- A remote item as consumed by `_GetFilesToProcess`: the display name,
the set of marker fields present on the JSON object (such as `"image"`
or `"video"`), and the creation date. -/
structure RemoteItem where
  name : String
  fields : List String
  year : Nat
  month : Nat
  day : Nat
deriving DecidableEq

/-- Count of leading dot characters. -/
def leadingDots : List Char → Nat
  | '.' :: rest => 1 + leadingDots rest
  | _ => 0

/-- Position of the last dot character, if any. -/
def lastDotPos (cs : List Char) : Option Nat :=
  ((List.range cs.length).filter (fun i => decide (cs.getD i ' ' = '.'))).getLast?

/-- Extension of a filename, `os.path.splitext(name)[1]`: the suffix
from the last dot, empty when there is no dot or when every character
before the last dot is itself a dot. -/
def splitextExt (name : String) : String :=
  let cs := name.toList
  match lastDotPos cs with
  | none => ""
  | some i => if leadingDots cs ≥ i then "" else String.mk (cs.drop i)

/-- Rule-selection loop of `_GetFilesToProcess`: for each processor in
order, first test whether its attribute name is a field of the item,
then test whether the item's extension is in its extension set; the
first test that succeeds selects the processor. -/
def selectFileProcessor (procs : List (String × FileProcessorInfo))
    (fields : List String) (ext : String) : Option FileProcessorInfo :=
  match procs with
  | [] => none
  | (tag, p) :: rest =>
    if fields.contains tag then some p
    else if p.fileTypes.contains ext then some p
    else selectFileProcessor rest fields ext

/-- Modelled from the spec's words for comparison (C3): select the first
rule whose kind tag is present as a marker field on the item, falling
back — only if no rule's kind tag is present — to the first rule whose
extension set contains the item's extension. -/
def selectFileProcessorSpec (procs : List (String × FileProcessorInfo))
    (fields : List String) (ext : String) : Option FileProcessorInfo :=
  match procs.find? (fun tp => fields.contains tp.1) with
  | some tp => some tp.2
  | none => (procs.find? (fun tp => tp.2.fileTypes.contains ext)).map (fun tp => tp.2)

/-- The image processor built by `_GetFilesToProcess` for the default
`--local-pictures-subdir`. -/
def imageProcessor : FileProcessorInfo :=
  ⟨[".jpg", ".heic"], ["My Pictures"]⟩

/-- The video processor built by `_GetFilesToProcess` for the default
`--local-videos-subdir`. -/
def videoProcessor : FileProcessorInfo :=
  ⟨[".avi", ".mp4"], ["My Videos"]⟩

/-- The ordered processor mapping of `_GetFilesToProcess` under the
default options (`"image"` inserted before `"video"`). -/
def defaultFileProcessors : List (String × FileProcessorInfo) :=
  [("image", imageProcessor), ("video", videoProcessor)]

/-- The ignored extension set of `_GetFilesToProcess`. -/
def ignoreFileTypes : List String := [".thm"]

/-- Zero-padding to two digits, `{month:02d}` / `{day:02d}`. -/
def pad2 (n : Nat) : String :=
  if n < 10 then "0" ++ toString n else toString n

/-- Destination resolution for one item under the default
`--output-dir-template`: the expanded
`{year}/{month:02d}/{year}.{month:02d}.{day:02d} - {name}` directory
under the processor's output directory, with the item's original
filename appended.  A path is a list of components. -/
def defaultDest (outputDir : List String) (logicalName : String)
    (proc : FileProcessorInfo) (item : RemoteItem) : List String :=
  outputDir ++ proc.outputDirTemplate
    ++ [toString item.year, pad2 item.month,
        toString item.year ++ "." ++ pad2 item.month ++ "." ++ pad2 item.day
          ++ " - " ++ logicalName,
        item.name]

/-- Model of the per-item loop of `_GetFilesToProcess`.  `destFn`
abstracts the destination-template expansion; `existing` is the set of
paths that exist as files on local storage.  Returns the planned
`(item, destination)` list and the list of items for which a planning
error was recorded, both in input order. -/
def getFilesToProcess (procs : List (String × FileProcessorInfo))
    (ignore : List String) (destFn : FileProcessorInfo → RemoteItem → List String)
    (existing : List (List String)) :
    List RemoteItem → List (RemoteItem × List String) × List RemoteItem
  | [] => ([], [])
  | item :: rest =>
    let r := getFilesToProcess procs ignore destFn existing rest
    if splitextExt item.name ∈ ignore then r
    else
      match selectFileProcessor procs item.fields (splitextExt item.name) with
      | none => (r.1, item :: r.2)
      | some proc =>
        if destFn proc item ∈ existing then r
        else ((item, destFn proc item) :: r.1, r.2)

/-- The remote item `a.jpg` used in the planner witness. -/
def witnessItemA : RemoteItem := ⟨"a.jpg", [], 2024, 8, 5⟩

/-- The remote item `b.jpg` used in the planner witness. -/
def witnessItemB : RemoteItem := ⟨"b.jpg", [], 2024, 8, 5⟩

/-- Destination resolved for `witnessItemA` under the defaults. -/
def witnessDestA : List String := defaultDest ["out"] "me" imageProcessor witnessItemA

/-- Destination resolved for `witnessItemB` under the defaults. -/
def witnessDestB : List String := defaultDest ["out"] "me" imageProcessor witnessItemB

/-- A local file as seen by the deduplication passes: its full path (a
list of components), its `Path.name` (last component), its byte size and
its SHA-512 content hash. -/
structure DedupFile where
  path : List String
  name : String
  size : Nat
  hash : String
deriving DecidableEq

/-- Model of `dict.setdefault(key, []).append(value)` on an
insertion-ordered dictionary. -/
def insertGrouped {α κ : Type} [DecidableEq κ] :
    List (κ × List α) → κ → α → List (κ × List α)
  | [], k, v => [(k, [v])]
  | (k0, vs) :: rest, k, v =>
    if k0 = k then (k0, vs ++ [v]) :: rest
    else (k0, vs) :: insertGrouped rest k v

/-- Grouping loop shared by both dedup passes: fold the files into an
insertion-ordered map keyed by `key`. -/
def organizeBy {α κ : Type} [DecidableEq κ] (key : α → κ) (l : List α) :
    List (κ × List α) :=
  l.foldl (fun m v => insertGrouped m (key v) v) []

/-- Duplicate groups of `RemoveDuplicates` in `BackupOneDrive.py`:
group paths by hash alone and keep the groups with
`len(dup_filenames) > 1`. -/
def backupDuplicatedGroups (files : List DedupFile) : List (List DedupFile) :=
  ((organizeBy (fun f => f.hash) files).filter
      (fun p => decide (1 < p.2.length))).map (fun p => p.2)

/-- Duplicate groups of `EntryPoint` in `DeduplicateFiles.py`: group by
the `(filename.name, hash)` pair and keep groups with
`len(filenames) != 1`. -/
def dedupDuplicatedGroups (files : List DedupFile) : List (List DedupFile) :=
  ((organizeBy (fun f => (f.name, f.hash)) files).filter
      (fun p => decide (p.2.length ≠ 1))).map (fun p => p.2)

/-- Removal candidates: for each duplicate group, all members except the
first encountered (`dup_filenames[1:]` / `filenames[1:]`). -/
def removedOf (groups : List (List DedupFile)) : List DedupFile :=
  groups.flatMap (fun g => g.drop 1)

/-- Candidate set of the standalone deduplicator: `EntryPoint` skips any
walked file whose `st_size == 0` before hashing. -/
def dedupCandidates (files : List DedupFile) : List DedupFile :=
  files.filter (fun f => decide (f.size ≠ 0))

/-- Weight returned by `RemoveDuplicates.PrepareTask` in
`BackupOneDrive.py`: `filename.stat().st_size or 1` (Python `or` maps a
zero size to 1). -/
def prepareTaskWeight (size : Nat) : Nat :=
  if size = 0 then 1 else size

/-- Weight returned by `EntryPoint.CalculateHash` in
`DeduplicateFiles.py`: `filename.stat().st_size`, with no coercion. -/
def calculateHashWeight (size : Nat) : Nat := size

/-- First file of the C6 example: `A.jpg` with hash `H1`. -/
def fileA1 : DedupFile := ⟨["folder1", "A.jpg"], "A.jpg", 3, "H1"⟩

/-- Second file of the C6 example: `B.jpg` with the same hash `H1`. -/
def fileB : DedupFile := ⟨["folder1", "B.jpg"], "B.jpg", 3, "H1"⟩

/-- Third file of the C6 example: `A.jpg` with hash `H1` in another
folder. -/
def fileA2 : DedupFile := ⟨["folder2", "A.jpg"], "A.jpg", 3, "H1"⟩

/-- Parent directory of a path (list of components). -/
def parentDir (p : List String) : List String := p.dropLast

/-- The filesystem view of the `RemoveDuplicates` command: the walked
files (in `os.walk` order) and the walked directories (in top-down
`os.walk` order). -/
structure BackupFS where
  files : List DedupFile
  dirs : List (List String)
deriving DecidableEq

/-- Model of `any(directory.iterdir())`: a directory has an entry when
some remaining file or some other remaining directory lies directly
inside it. -/
def dirHasEntry (files : List DedupFile) (dirs : List (List String))
    (d : List String) : Bool :=
  files.any (fun f => decide (parentDir f.path = d))
    || dirs.any (fun d2 => decide (d2 ≠ d) && decide (parentDir d2 = d))

/-- Model of the `for directory in reversed(directories)` loop of
`RemoveDuplicates`: count directories found empty, and remove them
(`directory.rmdir()`) only when not in dry-run mode. -/
def processDirs (dryRun : Bool) (files : List DedupFile) :
    List (List String) → List (List String) → Nat × List (List String)
  | [], dirs => (0, dirs)
  | d :: rest, dirs =>
    if dirHasEntry files dirs d then processDirs dryRun files rest dirs
    else
      let dirs2 := if dryRun then dirs else dirs.erase d
      let r := processDirs dryRun files rest dirs2
      (r.1 + 1, r.2)

/-- Report produced by one `RemoveDuplicates` run: the duplicate groups,
the reported removal set of files, and the number of directories
reported (and, in a real run, removed) as empty. -/
structure DedupReport where
  groups : List (List (List String))
  removedFiles : List (List String)
  numDirsRemoved : Nat
deriving DecidableEq

/-- Model of the `RemoveDuplicates` command of `BackupOneDrive.py`:
group the walked files by hash, report every non-first group member as
a duplicate (unlinking it only when not in dry-run mode), then walk the
directories bottom-up and report (and, when not in dry-run mode,
remove) the ones found empty. -/
def removeDuplicatesRun (dryRun : Bool) (fs : BackupFS) : DedupReport × BackupFS :=
  let groups := backupDuplicatedGroups fs.files
  let removedPaths := (removedOf groups).map (fun f => f.path)
  let files2 := if dryRun then fs.files
    else fs.files.filter (fun f => decide (f.path ∉ removedPaths))
  let r := processDirs dryRun files2 fs.dirs.reverse fs.dirs
  ({ groups := groups.map (fun g => g.map (fun f => f.path)),
     removedFiles := removedPaths,
     numDirsRemoved := r.1 },
   { files := files2, dirs := r.2 })

/-- The C4 counterexample tree: directory `d` holds file `a`, directory
`e` holds file `b`, and the two files have equal hashes. -/
def c4FS : BackupFS :=
  { files := [⟨["d", "a"], "a", 1, "h"⟩, ⟨["e", "b"], "b", 1, "h"⟩],
    dirs := [[], ["d"], ["e"]] }

/-- Per-request results dictionary and shutdown flag of
`CallbackServer`. -/
structure ServerState where
  results : List (String × Option String)
  quit : Bool
deriving DecidableEq

/-- Model of `parent_results[result_name] = value` on the
insertion-ordered results dictionary. -/
def setResult : List (String × Option String) → String → Option String →
    List (String × Option String)
  | [], k, v => [(k, v)]
  | (k0, v0) :: rest, k, v =>
    if k0 = k then (k, v) :: rest else (k0, v0) :: setResult rest k v

/-- Model of `RequestHandler.do_GET`: for each expected result name,
record the first query value under that name (or `None` when absent,
marking the request unsuccessful), respond, and set the quit event.
Returns the new state and the `is_successful` flag. -/
def doGET (names : List String) (query : List (String × String))
    (st : ServerState) : ServerState × Bool :=
  let r := names.foldl
    (fun (acc : List (String × Option String) × Bool) n =>
      match parseQsGet query n with
      | v :: _ => (setResult acc.1 n (some v), acc.2)
      | [] => (setResult acc.1 n none, false))
    (st.results, true)
  ({ results := r.1, quit := true }, r.2)

/-- Initial server state: no results, quit event not set. -/
def initServerState : ServerState := { results := [], quit := false }

/-- Model of the `ThreadProc` loop: handle queued requests one at a time
until the quit event is observed.  Returns the final state and the
number of requests actually handled. -/
def serveLoop (names : List String) :
    List (List (String × String)) → ServerState → ServerState × Nat
  | [], st => (st, 0)
  | q :: rest, st =>
    if st.quit then (st, 0)
    else
      let st2 := (doGET names q st).1
      let r := serveLoop names rest st2
      (r.1, r.2 + 1)

/-- Return shape of `CallbackServer.Wait`: a timeout exception, a single
value when one result name was configured, or the whole dictionary. -/
inductive WaitOutcome
  | timeoutError
  | singleValue (v : Option String)
  | multiValues (rs : List (String × Option String))
deriving DecidableEq

/-- Model of `CallbackServer.Wait`: `requests` are the requests arriving
within the timeout window; when none arrives the quit event is never
set and a timeout exception is raised, otherwise the recorded results
are returned (a lone result unwrapped). -/
def callbackWait (names : List String)
    (requests : List (List (String × String))) : WaitOutcome :=
  let fin := (serveLoop names requests initServerState).1
  if fin.quit then
    match fin.results with
    | [r] => WaitOutcome.singleValue r.2
    | rs => WaitOutcome.multiValues rs
  else WaitOutcome.timeoutError

/-- Default `timeout_seconds` of `CallbackServer.Wait`. -/
def defaultWaitTimeoutSeconds : Nat := 120

theorem assocLookup_fsRemove_self (fs : FS) (p : String) :
    assocLookup (fsRemove fs p) p = none := by
  induction fs with
  | nil => rfl
  | cons e rest ih =>
    obtain ⟨q, c⟩ := e
    by_cases h : q = p
    · simp [fsRemove, h, ih]
    · simp [fsRemove, h, assocLookup, ih]

theorem assocLookup_fsRemove_ne (fs : FS) (p q : String) (h : q ≠ p) :
    assocLookup (fsRemove fs p) q = assocLookup fs q := by
  induction fs with
  | nil => rfl
  | cons e rest ih =>
    obtain ⟨k, c⟩ := e
    by_cases hk : k = p
    · subst hk
      have : ¬k = q := fun he => h (he ▸ rfl)
      simp [fsRemove, assocLookup, this, ih]
    · by_cases hq : k = q
      · subst hq
        simp [fsRemove, hk, assocLookup, h]
      · simp [fsRemove, hk, assocLookup, hq, ih]

theorem assocLookup_append {β : Type} (l m : List (String × β)) (q : String) :
    assocLookup (l ++ m) q =
      match assocLookup l q with
      | some c => some c
      | none => assocLookup m q := by
  induction l with
  | nil => rfl
  | cons e rest ih =>
    obtain ⟨k, c⟩ := e
    by_cases hk : k = q
    · simp [assocLookup, hk]
    · simp [assocLookup, hk, ih]

theorem fsLookup_fsWrite_self (fs : FS) (p : String) (c : List Nat) :
    fsLookup (fsWrite fs p c) p = some c := by
  simp [fsLookup, fsWrite, assocLookup_append, assocLookup_fsRemove_self, assocLookup]

theorem fsLookup_fsWrite_ne (fs : FS) (p q : String) (c : List Nat) (h : q ≠ p) :
    fsLookup (fsWrite fs p c) q = fsLookup fs q := by
  have h2 : ¬p = q := fun he => h (he ▸ rfl)
  simp [fsLookup, fsWrite, assocLookup_append, assocLookup_fsRemove_ne fs p q h, assocLookup, h2]
  cases assocLookup fs q <;> simp

theorem fsLookup_fsMove_dst (fs : FS) (src dst : String) (c : List Nat)
    (h : fsLookup fs src = some c) :
    fsLookup (fsMove fs src dst) dst = some c := by
  simp [fsMove, fsLookup] at h ⊢
  rw [h]
  exact fsLookup_fsWrite_self _ _ _

theorem fsLookup_fsMove_other (fs : FS) (src dst q : String)
    (hq1 : q ≠ dst) (hq2 : q ≠ src) :
    fsLookup (fsMove fs src dst) q = fsLookup fs q := by
  unfold fsMove
  cases hcase : fsLookup fs src with
  | none => rfl
  | some c =>
    rw [fsLookup_fsWrite_ne _ _ _ _ hq1]
    exact assocLookup_fsRemove_ne fs src q hq2

theorem destTmpName_ne (dest : String) : destTmpName dest ≠ dest := by
  intro h
  have hlen := congrArg String.length h
  have h4 : (".tmp" : String).length = 4 := rfl
  rw [destTmpName, String.length_append, h4] at hlen
  omega

/-- C1: the commit sequence of `_ProcessFiles.Transform` performs, in
order: remove the stale `.tmp` sibling, move the downloaded temp file to
the `.tmp` sibling, remove the destination, move the `.tmp` sibling onto
the destination.  After every individual step the destination holds
either its original complete content, nothing, or the complete
downloaded content — never a partial file — and a re-run of the whole
transform for the same item leaves the same correct final file. -/
theorem transform_commit_atomic (fs : FS) (chunks : List (List Nat)) (temp dest : String)
    (htd : temp ≠ dest) (htt : temp ≠ destTmpName dest) :
    fsLookup (transform fs chunks temp dest) dest = some (downloadedContent chunks)
    ∧ fsLookup (commitStep1 (fsWrite fs temp (downloadedContent chunks)) dest) dest
        = fsLookup fs dest
    ∧ fsLookup (commitStep2 (fsWrite fs temp (downloadedContent chunks)) temp dest) dest
        = fsLookup fs dest
    ∧ fsLookup (commitStep3 (fsWrite fs temp (downloadedContent chunks)) temp dest) dest
        = none
    ∧ fsLookup (transform (transform fs chunks temp dest) chunks temp dest) dest
        = some (downloadedContent chunks) := by
  have htmp_ne : ∀ fs0 : FS, fsLookup (transform fs0 chunks temp dest) dest
      = some (downloadedContent chunks) := by
    intro fs0
    unfold transform commit
    apply fsLookup_fsMove_dst
    unfold commitStep3
    show assocLookup _ _ = _
    rw [assocLookup_fsRemove_ne _ _ _ (destTmpName_ne dest)]
    unfold commitStep2
    apply fsLookup_fsMove_dst
    unfold commitStep1
    show assocLookup _ _ = _
    rw [assocLookup_fsRemove_ne _ _ _ htt]
    exact fsLookup_fsWrite_self _ _ _
  have hs1 : fsLookup (commitStep1 (fsWrite fs temp (downloadedContent chunks)) dest) dest
      = fsLookup fs dest := by
    unfold commitStep1
    show assocLookup _ _ = _
    rw [assocLookup_fsRemove_ne _ _ _ (fun h => destTmpName_ne dest h.symm)]
    exact fsLookup_fsWrite_ne _ _ _ _ (fun h => htd h.symm)
  have hs2 : fsLookup (commitStep2 (fsWrite fs temp (downloadedContent chunks)) temp dest) dest
      = fsLookup fs dest := by
    unfold commitStep2
    rw [fsLookup_fsMove_other _ _ _ _ (fun h => destTmpName_ne dest h.symm)
      (fun h => htd h.symm)]
    exact hs1
  refine ⟨htmp_ne fs, hs1, hs2, ?_, htmp_ne (transform fs chunks temp dest)⟩
  unfold commitStep3
  exact assocLookup_fsRemove_self _ _

/-- Witness for C1 at a concrete input. -/
theorem transform_commit_atomic_witness :
    fsLookup (transform [] [[1, 2], [3]] "systemp" "outfile") "outfile"
      = some (downloadedContent [[1, 2], [3]]) :=
  (transform_commit_atomic [] [[1, 2], [3]] "systemp" "outfile"
    (by decide) (by decide)).1

theorem tokenNeedsRefresh_iff (st : TokenState) (now : Nat) :
    tokenNeedsRefresh st now = true
      ↔ st.accessExpires = none ∨ ∃ e, st.accessExpires = some e ∧ e ≤ now := by
  unfold tokenNeedsRefresh
  cases h : st.accessExpires with
  | none => simp
  | some e => simp

/-- C2: a refresh stores expiry `now + max(5, floor(0.9 * E))`; a call to
`GetAccessToken` refreshes exactly when no token has been acquired yet or
the current time is at or past the stored expiry; hence, after a refresh
with declared lifetime `E`, a later call refreshes exactly when it occurs
at or after `now + max(5, floor(0.9 * E))`. -/
theorem getAccessToken_refresh_policy
    (st : TokenState) (now : Nat) (resp : RefreshResponse)
    (now' : Nat) (resp' : RefreshResponse)
    (h : st.accessExpires = none ∨ ∃ e, st.accessExpires = some e ∧ e ≤ now) :
    (GetAccessToken st now resp).2 = true
    ∧ (GetAccessToken st now resp).1.2.accessExpires
        = some (now + max 5 (9 * resp.expiresIn / 10))
    ∧ (∀ st2 n2 r2, (GetAccessToken st2 n2 r2).2 = true
        ↔ st2.accessExpires = none ∨ ∃ e, st2.accessExpires = some e ∧ e ≤ n2)
    ∧ ((GetAccessToken (GetAccessToken st now resp).1.2 now' resp').2 = true
        ↔ now + max 5 (9 * resp.expiresIn / 10) ≤ now') := by
  have hb : tokenNeedsRefresh st now = true := (tokenNeedsRefresh_iff st now).2 h
  have hflag : ∀ st2 n2 r2, (GetAccessToken st2 n2 r2).2 = tokenNeedsRefresh st2 n2 := by
    intro st2 n2 r2
    unfold GetAccessToken
    by_cases hc : tokenNeedsRefresh st2 n2 = true
    · simp [hc]
    · rw [if_neg hc]
      simp only [Bool.not_eq_true] at hc
      rw [hc]
  refine ⟨by rw [hflag, hb], ?_, ?_, ?_⟩
  · simp [GetAccessToken, hb, refreshDeadline]
  · intro st2 n2 r2
    rw [hflag]
    exact tokenNeedsRefresh_iff st2 n2
  · rw [hflag]
    have hexp : (GetAccessToken st now resp).1.2.accessExpires
        = some (now + max 5 (9 * resp.expiresIn / 10)) := by
      simp [GetAccessToken, hb, refreshDeadline]
    unfold tokenNeedsRefresh
    rw [hexp]
    simp

/-- Witness for C2: first acquisition at time `100` with declared
lifetime `3600` stores expiry `100 + 3240`, and a call at time `200`
(before the deadline) performs no refresh. -/
theorem getAccessToken_refresh_policy_witness :
    (GetAccessToken ⟨"rt", none, none⟩ 100 ⟨"at", 3600, none⟩).1.2.accessExpires
      = some (100 + max 5 (9 * 3600 / 10))
    ∧ ((GetAccessToken
          (GetAccessToken ⟨"rt", none, none⟩ 100 ⟨"at", 3600, none⟩).1.2
          200 ⟨"at2", 3600, none⟩).2 = true
        ↔ 100 + max 5 (9 * 3600 / 10) ≤ 200) :=
  ⟨(getAccessToken_refresh_policy ⟨"rt", none, none⟩ 100 ⟨"at", 3600, none⟩
      200 ⟨"at2", 3600, none⟩ (Or.inl rfl)).2.1,
   (getAccessToken_refresh_policy ⟨"rt", none, none⟩ 100 ⟨"at", 3600, none⟩
      200 ⟨"at2", 3600, none⟩ (Or.inl rfl)).2.2.2⟩

/-- C5: with `tempauth` present the request carries only that credential
and no OAuth `Authorization` header; with it absent the request carries
only the OAuth bearer token; the two credentials are never both
present. -/
theorem prepareDownloadHeaders_exclusive (query : List (String × String)) (token : String) :
    (∀ v vs, parseQsGet query "tempauth" = v :: vs →
       prepareDownloadHeaders query token = [("Bearer", v)]
       ∧ assocLookup (prepareDownloadHeaders query token) "Authorization" = none)
    ∧ (parseQsGet query "tempauth" = [] →
       prepareDownloadHeaders query token = [("Authorization", "Bearer " ++ token)]
       ∧ assocLookup (prepareDownloadHeaders query token) "Bearer" = none)
    ∧ ¬(assocLookup (prepareDownloadHeaders query token) "Authorization" ≠ none
        ∧ assocLookup (prepareDownloadHeaders query token) "Bearer" ≠ none) := by
  refine ⟨?_, ?_, ?_⟩
  · intro v vs hv
    rw [prepareDownloadHeaders, hv]
    exact ⟨rfl, by simp [assocLookup]⟩
  · intro hv
    rw [prepareDownloadHeaders, hv]
    exact ⟨rfl, by simp [getHeaders, assocLookup]⟩
  · intro hcontra
    obtain ⟨ha, hb⟩ := hcontra
    unfold prepareDownloadHeaders at ha hb
    cases hv : parseQsGet query "tempauth" with
    | nil =>
      rw [hv] at hb
      simp [getHeaders, assocLookup] at hb
    | cons v vs =>
      rw [hv] at ha
      simp [assocLookup] at ha

/-- Witness for C5 at a concrete download URL query. -/
theorem prepareDownloadHeaders_exclusive_witness :
    prepareDownloadHeaders [("tempauth", "tok")] "ACC" = [("Bearer", "tok")]
    ∧ assocLookup (prepareDownloadHeaders [("tempauth", "tok")] "ACC") "Authorization"
        = none :=
  (prepareDownloadHeaders_exclusive [("tempauth", "tok")] "ACC").1 "tok" [] rfl

/-- C3 counterexample: an item carrying the `"video"` marker field whose
name has extension `.jpg` is routed by the code to the earlier image
rule (whose extension set matched first), not to the later video rule
whose kind tag is present, contradicting the claimed marker-first
selection. -/
theorem selectFileProcessor_marker_first_false :
    splitextExt "clip.jpg" = ".jpg"
    ∧ selectFileProcessor defaultFileProcessors ["video"] ".jpg" = some imageProcessor
    ∧ selectFileProcessorSpec defaultFileProcessors ["video"] ".jpg" = some videoProcessor
    ∧ imageProcessor ≠ videoProcessor := by
  refine ⟨by decide, by decide, by decide, by decide⟩

/-- C3 amended: the planner selects the first rule, in rule order, that
matches the item at all, where within each rule the kind-tag marker test
is made before the extension test; an item carrying the kind tag of a
later rule while its extension matches an earlier rule therefore gets
the earlier rule. -/
theorem selectFileProcessor_first_match (procs : List (String × FileProcessorInfo))
    (fields : List String) (ext : String) :
    selectFileProcessor procs fields ext
      = (procs.find? (fun tp => fields.contains tp.1 || tp.2.fileTypes.contains ext)).map
          (fun tp => tp.2) := by
  induction procs with
  | nil => rfl
  | cons tp rest ih =>
    obtain ⟨tag, p⟩ := tp
    by_cases h1 : tag ∈ fields
    · rw [List.find?_cons_of_pos _ (by simp [h1])]
      simp [selectFileProcessor, h1]
    · by_cases h2 : ext ∈ p.fileTypes
      · rw [List.find?_cons_of_pos _ (by simp [h1, h2])]
        simp [selectFileProcessor, h1, h2]
      · rw [List.find?_cons_of_neg _ (by simp [h1, h2])]
        simp [selectFileProcessor, h1, h2, ih]

theorem getFilesToProcess_planned_subset (procs : List (String × FileProcessorInfo))
    (ignore : List String) (destFn : FileProcessorInfo → RemoteItem → List String)
    (existing : List (List String)) (item : RemoteItem) (rest : List RemoteItem) :
    (getFilesToProcess procs ignore destFn existing rest).1.Subset
      (getFilesToProcess procs ignore destFn existing (item :: rest)).1 := by
  intro p hp
  by_cases hi : splitextExt item.name ∈ ignore
  · simp only [getFilesToProcess]
    rw [if_pos hi]
    exact hp
  · cases hsel : selectFileProcessor procs item.fields (splitextExt item.name) with
    | none =>
      simp only [getFilesToProcess, hsel]
      rw [if_neg hi]
      exact hp
    | some proc =>
      by_cases hex : destFn proc item ∈ existing
      · simp only [getFilesToProcess, hsel]
        rw [if_neg hi, if_pos hex]
        exact hp
      · simp only [getFilesToProcess, hsel]
        rw [if_neg hi, if_neg hex]
        exact List.mem_cons_of_mem _ hp

/-- C7: an item whose resolved destination already exists is skipped
silently — it contributes neither a placement decision nor a planning
error — and a second planner run against the same catalog, over a local
tree containing everything the first run planned plus everything that
already existed, plans zero fetch tasks. -/
theorem getFilesToProcess_idempotent (procs : List (String × FileProcessorInfo))
    (ignore : List String) (destFn : FileProcessorInfo → RemoteItem → List String)
    (existing existing2 : List (List String)) (items : List RemoteItem)
    (item : RemoteItem) (rest : List RemoteItem) (proc : FileProcessorInfo)
    (hni : splitextExt item.name ∉ ignore)
    (hsel : selectFileProcessor procs item.fields (splitextExt item.name) = some proc)
    (hex : destFn proc item ∈ existing)
    (hmono : ∀ d, d ∈ existing → d ∈ existing2)
    (hfull : ∀ p ∈ (getFilesToProcess procs ignore destFn existing items).1,
      p.2 ∈ existing2) :
    getFilesToProcess procs ignore destFn existing (item :: rest)
      = getFilesToProcess procs ignore destFn existing rest
    ∧ (getFilesToProcess procs ignore destFn existing2 items).1 = [] := by
  constructor
  · simp only [getFilesToProcess, hsel]
    rw [if_neg hni, if_pos hex]
  · induction items with
    | nil => rfl
    | cons it its ih =>
      have hsub := getFilesToProcess_planned_subset procs ignore destFn existing it its
      have hfull' : ∀ p ∈ (getFilesToProcess procs ignore destFn existing its).1,
          p.2 ∈ existing2 := fun p hp => hfull p (hsub hp)
      have htail := ih hfull'
      by_cases hi : splitextExt it.name ∈ ignore
      · simp only [getFilesToProcess]
        rw [if_pos hi]
        exact htail
      · cases hsel2 : selectFileProcessor procs it.fields (splitextExt it.name) with
        | none =>
          simp only [getFilesToProcess, hsel2]
          rw [if_neg hi]
          exact htail
        | some proc2 =>
          have hin2 : destFn proc2 it ∈ existing2 := by
            by_cases hex2 : destFn proc2 it ∈ existing
            · exact hmono _ hex2
            · apply hfull (it, destFn proc2 it)
              simp only [getFilesToProcess, hsel2]
              rw [if_neg hi, if_neg hex2]
              exact List.mem_cons_self _ _
          simp only [getFilesToProcess, hsel2]
          rw [if_neg hi, if_pos hin2]
          exact htail

/-- Witness for C7: with `witnessDestA` already on disk, the item
`witnessItemA` contributes nothing; with both destinations on disk the
second run plans zero tasks. -/
theorem getFilesToProcess_idempotent_witness :
    (getFilesToProcess defaultFileProcessors ignoreFileTypes (defaultDest ["out"] "me")
        [witnessDestA] [witnessItemA, witnessItemB]
      = getFilesToProcess defaultFileProcessors ignoreFileTypes (defaultDest ["out"] "me")
        [witnessDestA] [witnessItemB])
    ∧ (getFilesToProcess defaultFileProcessors ignoreFileTypes (defaultDest ["out"] "me")
        [witnessDestA, witnessDestB] [witnessItemA, witnessItemB]).1 = [] :=
  getFilesToProcess_idempotent defaultFileProcessors ignoreFileTypes
    (defaultDest ["out"] "me") [witnessDestA] [witnessDestA, witnessDestB]
    [witnessItemA, witnessItemB] witnessItemA [witnessItemB] imageProcessor
    (by decide) (by decide) (by decide)
    (by
      intro d hd
      simp only [List.mem_singleton] at hd
      subst hd
      exact List.mem_cons_self _ _)
    (by
      intro p hp
      have he : (getFilesToProcess defaultFileProcessors ignoreFileTypes
          (defaultDest ["out"] "me") [witnessDestA] [witnessItemA, witnessItemB]).1
          = [(witnessItemB, witnessDestB)] := by decide
      rw [he] at hp
      simp only [List.mem_singleton] at hp
      subst hp
      exact List.mem_cons_of_mem _ (List.mem_cons_self _ _))

/-- C6: on `{A.jpg(H1), B.jpg(H1), A.jpg(H1) elsewhere}`, grouping by
hash alone yields one group of all three files, grouping by
`(name, hash)` yields one group of the two `A.jpg` files with `B.jpg` in
no group, and in each group the first member in encounter order is
retained while exactly the remaining members are removed. -/
theorem dedup_grouping_variants :
    backupDuplicatedGroups [fileA1, fileB, fileA2] = [[fileA1, fileB, fileA2]]
    ∧ dedupDuplicatedGroups [fileA1, fileB, fileA2] = [[fileA1, fileA2]]
    ∧ (dedupDuplicatedGroups [fileA1, fileB, fileA2]).all
        (fun g => decide (fileB ∉ g)) = true
    ∧ removedOf (backupDuplicatedGroups [fileA1, fileB, fileA2]) = [fileB, fileA2]
    ∧ removedOf (dedupDuplicatedGroups [fileA1, fileB, fileA2]) = [fileA2]
    ∧ (backupDuplicatedGroups [fileA1, fileB, fileA2]).map (fun g => g.take 1)
        = [[fileA1]]
    ∧ (dedupDuplicatedGroups [fileA1, fileB, fileA2]).map (fun g => g.take 1)
        = [[fileA1]] := by
  refine ⟨by decide, by decide, by decide, by decide, by decide, by decide, by decide⟩

theorem insertGrouped_mem {α κ : Type} [DecidableEq κ]
    (m : List (κ × List α)) (k : κ) (v : α) (g : κ × List α) (x : α)
    (hg : g ∈ insertGrouped m k v) (hx : x ∈ g.2) :
    (∃ g2 ∈ m, x ∈ g2.2) ∨ x = v := by
  induction m with
  | nil =>
    simp only [insertGrouped, List.mem_singleton] at hg
    subst hg
    simp only [List.mem_singleton] at hx
    exact Or.inr hx
  | cons e rest ih =>
    obtain ⟨k0, vs⟩ := e
    by_cases hk : k0 = k
    · rw [insertGrouped, if_pos hk] at hg
      rcases List.mem_cons.1 hg with hg1 | hg2
      · subst hg1
        simp only [List.mem_append, List.mem_singleton] at hx
        rcases hx with hx1 | hx2
        · exact Or.inl ⟨(k0, vs), List.mem_cons_self _ _, hx1⟩
        · exact Or.inr hx2
      · exact Or.inl ⟨g, List.mem_cons_of_mem _ hg2, hx⟩
    · rw [insertGrouped, if_neg hk] at hg
      rcases List.mem_cons.1 hg with hg1 | hg2
      · subst hg1
        exact Or.inl ⟨(k0, vs), List.mem_cons_self _ _, hx⟩
      · rcases ih hg2 with ⟨g2, hg2m, hx2⟩ | hv
        · exact Or.inl ⟨g2, List.mem_cons_of_mem _ hg2m, hx2⟩
        · exact Or.inr hv

theorem organizeBy_mem {α κ : Type} [DecidableEq κ] (key : α → κ)
    (l : List α) (g : κ × List α) (x : α)
    (hg : g ∈ organizeBy key l) (hx : x ∈ g.2) : x ∈ l := by
  suffices h : ∀ (l : List α) (acc : List (κ × List α)) (g : κ × List α),
      g ∈ l.foldl (fun m v => insertGrouped m (key v) v) acc → x ∈ g.2 →
      (∃ g2 ∈ acc, x ∈ g2.2) ∨ x ∈ l by
    rcases h l [] g hg hx with ⟨g2, hg2, _⟩ | hm
    · simp at hg2
    · exact hm
  intro l
  induction l with
  | nil =>
    intro acc g hg hx
    exact Or.inl ⟨g, hg, hx⟩
  | cons a rest ih =>
    intro acc g hg hx
    simp only [List.foldl_cons] at hg
    rcases ih (insertGrouped acc (key a) a) g hg hx with ⟨g2, hg2, hx2⟩ | hm
    · rcases insertGrouped_mem acc (key a) a g2 x hg2 hx2 with ⟨g3, hg3, hx3⟩ | hv
      · exact Or.inl ⟨g3, hg3, hx3⟩
      · exact Or.inr (hv ▸ List.mem_cons_self _ _)
    · exact Or.inr (List.mem_cons_of_mem _ hm)

theorem dedupDuplicatedGroups_mem (files : List DedupFile)
    (g : List DedupFile) (x : DedupFile)
    (hg : g ∈ dedupDuplicatedGroups files) (hx : x ∈ g) : x ∈ files := by
  unfold dedupDuplicatedGroups at hg
  rcases List.mem_map.1 hg with ⟨p, hp, hpe⟩
  subst hpe
  exact organizeBy_mem _ files p x (List.mem_of_mem_filter hp) hx

/-- C10: a zero-byte file is excluded from the standalone deduplicator's
candidate set before hashing — it is never hashed, appears in no
duplicate group, and is never removed. -/
theorem dedup_zero_size_excluded (files : List DedupFile) (f : DedupFile)
    (h : f.size = 0) :
    f ∉ dedupCandidates files
    ∧ (∀ g ∈ dedupDuplicatedGroups (dedupCandidates files), f ∉ g)
    ∧ f ∉ removedOf (dedupDuplicatedGroups (dedupCandidates files)) := by
  have hnc : f ∉ dedupCandidates files := by
    intro hm
    have := List.of_mem_filter hm
    simp [h] at this
  have hng : ∀ g ∈ dedupDuplicatedGroups (dedupCandidates files), f ∉ g := by
    intro g hg hf
    exact hnc (dedupDuplicatedGroups_mem _ g f hg hf)
  refine ⟨hnc, hng, ?_⟩
  intro hr
  unfold removedOf at hr
  rcases List.mem_flatMap.1 hr with ⟨g, hg, hf⟩
  exact hng g hg (List.mem_of_mem_drop hf)

/-- Witness for C10 at a concrete file set containing a zero-byte file. -/
theorem dedup_zero_size_excluded_witness :
    (⟨["d", "z.jpg"], "z.jpg", 0, "H0"⟩ : DedupFile)
      ∉ dedupCandidates [⟨["d", "z.jpg"], "z.jpg", 0, "H0"⟩, fileA1, fileA2]
    ∧ (⟨["d", "z.jpg"], "z.jpg", 0, "H0"⟩ : DedupFile)
      ∉ removedOf (dedupDuplicatedGroups
          (dedupCandidates [⟨["d", "z.jpg"], "z.jpg", 0, "H0"⟩, fileA1, fileA2])) :=
  ⟨(dedup_zero_size_excluded [⟨["d", "z.jpg"], "z.jpg", 0, "H0"⟩, fileA1, fileA2]
      ⟨["d", "z.jpg"], "z.jpg", 0, "H0"⟩ rfl).1,
   (dedup_zero_size_excluded [⟨["d", "z.jpg"], "z.jpg", 0, "H0"⟩, fileA1, fileA2]
      ⟨["d", "z.jpg"], "z.jpg", 0, "H0"⟩ rfl).2.2⟩

/-- C8: in `RemoveDuplicates.PrepareTask` a computed weight of zero is
reported as 1, and in the standalone deduplicator every task submitted
to the executor comes from the filtered candidate set, whose sizes are
all nonzero — so no submitted task reports weight zero and no aggregate
progress ratio divides by zero. -/
theorem zero_weight_coerced (files : List DedupFile) (f : DedupFile) (size : Nat)
    (hz : size = 0) (hf : f ∈ dedupCandidates files) :
    prepareTaskWeight size = 1 ∧ calculateHashWeight f.size ≠ 0 := by
  constructor
  · rw [hz]
    rfl
  · have := List.of_mem_filter hf
    simpa [calculateHashWeight] using this

/-- Witness for C8 at a concrete size and candidate set. -/
theorem zero_weight_coerced_witness :
    prepareTaskWeight 0 = 1 ∧ calculateHashWeight fileA1.size ≠ 0 :=
  zero_weight_coerced [fileA1] fileA1 0 rfl (by decide)

/-- C4 counterexample: on `c4FS` a real run removes duplicate `e/b` and
then reports directory `e` as emptied, while the dry run — whose
emptiness test sees the still-present file — reports no emptied
directory, so the reported removal set of emptied directories differs
between the two modes. -/
theorem removeDuplicates_dryRun_dirs_differ :
    (removeDuplicatesRun true c4FS).1.numDirsRemoved = 0
    ∧ (removeDuplicatesRun false c4FS).1.numDirsRemoved = 1
    ∧ (removeDuplicatesRun true c4FS).1.removedFiles
        = (removeDuplicatesRun false c4FS).1.removedFiles := by
  refine ⟨by decide, by decide, by decide⟩

theorem processDirs_dryRun_dirs (files : List DedupFile)
    (worklist dirs : List (List String)) :
    (processDirs true files worklist dirs).2 = dirs := by
  induction worklist generalizing dirs with
  | nil => rfl
  | cons d rest ih =>
    by_cases h : dirHasEntry files dirs d
    · simp only [processDirs]
      rw [if_pos h]
      exact ih dirs
    · simp only [processDirs]
      rw [if_neg h]
      simp only [if_pos rfl]
      exact ih dirs

/-- C4 amended: dry-run deduplication computes the same duplicate groups
and the same reported file-removal set as a real run and performs no
filesystem mutation; the reported set of emptied directories, however,
may differ, because the dry run evaluates directory emptiness against
the unmutated tree. -/
theorem removeDuplicates_dryRun_exact (fs : BackupFS) :
    (removeDuplicatesRun true fs).1.groups = (removeDuplicatesRun false fs).1.groups
    ∧ (removeDuplicatesRun true fs).1.removedFiles
        = (removeDuplicatesRun false fs).1.removedFiles
    ∧ (removeDuplicatesRun true fs).2 = fs := by
  refine ⟨rfl, rfl, ?_⟩
  show ({ files := _, dirs := _ } : BackupFS) = fs
  rw [if_pos rfl, processDirs_dryRun_dirs]

/-- C9 counterexample: a first request that does not carry the expected
`code` parameter is still served, the listener shuts down after it, and
`Wait` returns `None` rather than the parameter's value — so the
listener does not keep serving until a request matching the expected
query parameter arrives. -/
theorem callbackServer_nonmatching_shutdown :
    (serveLoop ["code"] [[("state", "xyz")]] initServerState).1.quit = true
    ∧ (serveLoop ["code"] [[("state", "xyz")]] initServerState).2 = 1
    ∧ callbackWait ["code"] [[("state", "xyz")]] = WaitOutcome.singleValue none := by
  refine ⟨by decide, by decide, by decide⟩

theorem serveLoop_quit (names : List String)
    (requests : List (List (String × String))) (st : ServerState)
    (h : st.quit = true) : serveLoop names requests st = (st, 0) := by
  cases requests with
  | nil => rfl
  | cons q rest =>
    simp only [serveLoop]
    rw [if_pos h]


/-- C9 amended: for every first request — whether or not it carries the
expected query parameter — the listener serves exactly that one request
and then shuts down, and `Wait` returns the parameter's first value when
the request carried it and `None` otherwise; when no request arrives
within the timeout (default 120 seconds) `Wait` raises a timeout
error. -/
theorem callbackServer_single_request (n : String)
    (q : List (String × String)) (rest : List (List (String × String))) :
    (serveLoop [n] (q :: rest) initServerState).2 = 1
    ∧ (serveLoop [n] (q :: rest) initServerState).1.quit = true
    ∧ callbackWait [n] (q :: rest)
        = WaitOutcome.singleValue (parseQsGet q n).head?
    ∧ callbackWait [n] [] = WaitOutcome.timeoutError
    ∧ defaultWaitTimeoutSeconds = 120 := by
  have hstep : (doGET [n] q initServerState).1
      = { results := [(n, (parseQsGet q n).head?)], quit := true } := by
    cases hq : parseQsGet q n with
    | nil =>
      simp only [doGET, List.foldl_cons, List.foldl_nil, hq]
      rfl
    | cons v vs =>
      simp only [doGET, List.foldl_cons, List.foldl_nil, hq]
      rfl
  have hloop : serveLoop [n] (q :: rest) initServerState
      = ({ results := [(n, (parseQsGet q n).head?)], quit := true }, 1) := by
    simp only [serveLoop]
    rw [if_neg (by decide : ¬initServerState.quit = true), hstep,
      serveLoop_quit [n] rest _ rfl]
  refine ⟨by rw [hloop], by rw [hloop], ?_, rfl, rfl⟩
  unfold callbackWait
  rw [hloop]
  rfl
